import Mathlib

/-!
Shallow embedding of the secure-group-messaging-api repository
(src/controllers/groupController.js, src/controllers/messageController.js,
src/models/*, src/validators/*), for verifying the natural-language spec.

Conventions of the embedding:
* Mongo ObjectIds are abstracted as `Nat`; a raw id string arriving over
  HTTP is a `RId`, which is either a well-formed ObjectId (`RId.valid n`)
  or a malformed string (`RId.malformed s`), mirroring
  `mongoose.isValidObjectId`.
* Timestamps (`Date.now()`, `leftAt`, `createdAt`, `expiresAt`) are `Nat`
  milliseconds; the current time is passed explicitly to operations that
  read the clock.
* The Mongo database is a `DB` record of lists; `findById` /
  `findOne` become first-match lookups, and a `save()` / `updateOne` on a
  found document becomes replacement of that first match (Mongo updates a
  single document).
* Each controller returns one value per `return res...` site, modelled by
  a per-operation output inductive; `.status` maps each constructor to the
  literal HTTP status the code sends.
-/

namespace GM

/-- Raw id string as received over HTTP: either a well-formed Mongo
ObjectId (abstracted by a `Nat`) or a malformed string.
`mongoose.isValidObjectId` is `RId.isValidObjectId`. -/
inductive RId where
  | valid (n : Nat)
  | malformed (s : String)
deriving DecidableEq, Repr

/-- Abstraction of `mongoose.isValidObjectId`. -/
def RId.isValidObjectId : RId → Bool
  | .valid _ => true
  | .malformed _ => false

/-- JS falsiness of the raw id string (`!!id`): the empty string is the
only falsy string. -/
def RId.truthy : RId → Bool
  | .valid _ => true
  | .malformed s => !(s == "")

/-- `group.type` enum from src/models/Group.js. -/
inductive GType where
  | open'
  | priv
deriving DecidableEq, Repr

/-- Group document (src/models/Group.js): name, type, owner, maxMembers
(0 = unlimited), members, bannedUsers. `id` is the Mongo `_id`. -/
structure Group where
  id : Nat
  name : String
  type : GType
  owner : Nat
  maxMembers : Nat
  members : List Nat
  bannedUsers : List Nat
deriving DecidableEq, Repr

/-- `status` enum of a JoinRequest (src/models/JoinRequest.js). -/
inductive RStatus where
  | pending
  | approved
  | declined
deriving DecidableEq, Repr

/-- JoinRequest document (src/models/JoinRequest.js); unique per
(group, user) pair. `id` is the Mongo `_id`. -/
structure JoinRequest where
  id : Nat
  group : Nat
  user : Nat
  status : RStatus
deriving DecidableEq, Repr

/-- Invite document (src/models/Invite.js). The raw token is never stored;
`tokenHash` is its one-way hash. -/
structure Invite where
  group : Nat
  owner : Nat
  tokenHash : String
  maxUses : Nat
  uses : Nat
  expiresAt : Nat
  disabled : Bool
deriving DecidableEq, Repr

/-- LeaveHistory document (src/models/LeaveHistory.js): appended when a
member leaves a private group; `leftAt` starts the 48h cooldown. -/
structure LeaveHistory where
  group : Nat
  user : Nat
  leftAt : Nat
deriving DecidableEq, Repr

/-- Message document (src/models/Message.js): per-group encrypted payload
with server timestamp. -/
structure Message where
  id : Nat
  group : Nat
  sender : Nat
  payload : String
  createdAt : Nat
deriving DecidableEq, Repr

/-- The persistent store: the Mongo collections, plus the Identity Store's
user set (consulted by auth, never by the group controller), plus a
counter supplying fresh `_id`s. -/
structure DB where
  users : List Nat
  groups : List Group
  reqs : List JoinRequest
  invites : List Invite
  leaves : List LeaveHistory
  msgs : List Message
  nextId : Nat
deriving DecidableEq, Repr

/-- `Group.findById(gid)`: first (only, since `_id` is unique) group with
this id. -/
def findGroup (db : DB) (gid : Nat) : Option Group :=
  db.groups.find? (fun g => g.id == gid)

/-- `group.save()` / `Group.updateOne({_id: gid}, ...)`: Mongo updates the
single document with this `_id`; modelled as transforming the first
list entry with this id. -/
def updateGroup : List Group → Nat → (Group → Group) → List Group
  | [], _, _ => []
  | g :: t, gid, f => if g.id == gid then f g :: t else g :: updateGroup t gid f

/-- `JoinRequest.findById(rid)`. -/
def findReqById (db : DB) (rid : Nat) : Option JoinRequest :=
  db.reqs.find? (fun r => r.id == rid)

/-- `JoinRequest.findOne({group, user})` (the pair is unique by schema
index). -/
def findReqByPair (db : DB) (gid uid : Nat) : Option JoinRequest :=
  db.reqs.find? (fun r => r.group == gid && r.user == uid)

/-- `jr.save()`: update the single request document with this `_id`. -/
def updateReq : List JoinRequest → Nat → (JoinRequest → JoinRequest) → List JoinRequest
  | [], _, _ => []
  | r :: t, rid, f => if r.id == rid then f r :: t else r :: updateReq t rid f

/-- `JoinRequest.findOneAndUpdate({group,user}, {$set:{status:'pending'}},
{upsert:true})`: set the unique pair's status to pending, inserting a
fresh document when the pair is absent. -/
def upsertPendingReq (db : DB) (gid uid : Nat) : DB :=
  match findReqByPair db gid uid with
  | some r =>
      { db with reqs := updateReq db.reqs r.id (fun q => { q with status := .pending }) }
  | none =>
      { db with
          reqs := db.reqs ++ [⟨db.nextId, gid, uid, .pending⟩],
          nextId := db.nextId + 1 }

/-- `capacityOk` (groupController.js line 26): 0 means unlimited, else the
member count must be strictly below the cap for one more to fit. -/
def capacityOk (g : Group) : Bool :=
  g.maxMembers == 0 || g.members.length < g.maxMembers

/-- `ensureNotBanned` (groupController.js line 31): when the user is in
`bannedUsers` it upserts a pending JoinRequest for the pair and throws a
403; `some db'` is the thrown-403 case carrying the updated store, `none`
means not banned (no effect). -/
def ensureNotBanned (db : DB) (g : Group) (uid : Nat) : Option DB :=
  if uid ∈ g.bannedUsers then some (upsertPendingReq db g.id uid) else none

/-- `[...new Set(l)]`: JS Set iteration order keeps the first occurrence
of each element. -/
def jsSetDedup : List RId → List RId → List RId
  | [], _ => []
  | a :: l, seen => if a ∈ seen then jsSetDedup l seen else a :: jsSetDedup l (a :: seen)

/-- Outcomes of `createGroup` (POST /groups), one per return site. -/
inductive CreateOut where
  | validationFailed
  | invalidInitialId (id : RId)
  | tooManyInitial
  | created (gid : Nat)
deriving DecidableEq, Repr

def CreateOut.status : CreateOut → Nat
  | .validationFailed => 400
  | .invalidInitialId _ => 400
  | .tooManyInitial => 400
  | .created _ => 201

/-- `groupCreateSchema` (src/validators/groupSchemas.js): nonempty name,
maxMembers 0 or ≥ 2 (initialMemberIds is any string list). -/
def groupCreateSchemaOk (name : String) (maxMembers : Nat) : Bool :=
  name.length ≥ 1 && (maxMembers == 0 || maxMembers ≥ 2)

/-- `createGroup` (groupController.js lines 52-94): validate body,
dedup initial members and strip falsy ids and the owner id, require each
remaining id to be a well-formed ObjectId (no user-existence lookup),
check owner+initial count against a nonzero capacity, then create the
group with the owner first in `members` and an empty `bannedUsers`. -/
def createGroup (db : DB) (ownerId : Nat) (name : String) (type : GType)
    (maxMembers : Nat) (initialMemberIds : List RId) : DB × CreateOut :=
  if !groupCreateSchemaOk name maxMembers then
    (db, .validationFailed)
  else
    let uniqueIds :=
      jsSetDedup (initialMemberIds.filter (fun i => i.truthy && i != RId.valid ownerId)) []
    match uniqueIds.find? (fun i => !i.isValidObjectId) with
    | some bad => (db, .invalidInitialId bad)
    | none =>
        let total := 1 + uniqueIds.length
        if maxMembers != 0 && total > maxMembers then
          (db, .tooManyInitial)
        else
          let memberIds := uniqueIds.filterMap (fun i => match i with
            | .valid n => some n
            | .malformed _ => none)
          let g : Group :=
            ⟨db.nextId, name, type, ownerId, maxMembers, ownerId :: memberIds, []⟩
          ({ db with groups := db.groups ++ [g], nextId := db.nextId + 1 }, .created g.id)

/-- Outcomes of `joinOpenGroup` (POST /groups/:groupId/join-open). -/
inductive JoinOpenOut where
  | invalidGroupId
  | notFoundOrNotOpen
  | bannedPending
  | alreadyMember
  | groupFull
  | joined
deriving DecidableEq, Repr

def JoinOpenOut.status : JoinOpenOut → Nat
  | .invalidGroupId => 400
  | .notFoundOrNotOpen => 404
  | .bannedPending => 403
  | .alreadyMember => 200
  | .groupFull => 400
  | .joined => 200

/-- `joinOpenGroup` (groupController.js lines 119-144): id guard, group
must exist and be open, banned users get a pending request plus 403,
members succeed idempotently, capacity is checked, else the user is
appended to `members`. -/
def joinOpenGroup (db : DB) (gid : RId) (uid : Nat) : DB × JoinOpenOut :=
  match gid with
  | .malformed _ => (db, .invalidGroupId)
  | .valid gidN =>
    match findGroup db gidN with
    | none => (db, .notFoundOrNotOpen)
    | some g =>
      if g.type != .open' then (db, .notFoundOrNotOpen)
      else
        match ensureNotBanned db g uid with
        | some db' => (db', .bannedPending)
        | none =>
          if uid ∈ g.members then (db, .alreadyMember)
          else if !capacityOk g then (db, .groupFull)
          else
            ({ db with
                groups := updateGroup db.groups g.id
                  (fun h => { h with members := h.members ++ [uid] }) },
             .joined)

/-- `COOLDOWN_HOURS = 48` (groupController.js line 23), in milliseconds
(`36e5` ms per hour). -/
def cooldownMs : Nat := 48 * 3600000

def msPerHour : Nat := 3600000

/-- Outcomes of `requestJoinPrivate` (POST /groups/:groupId/request-join). -/
inductive RJPOut where
  | invalidGroupId
  | notFoundOrNotPrivate
  | alreadyMember
  | bannedPending
  | cooldownActive (remainingHours : Nat)
  | alreadySubmitted (rid : Nat)
  | submitted (rid : Nat)
deriving DecidableEq, Repr

def RJPOut.status : RJPOut → Nat
  | .invalidGroupId => 400
  | .notFoundOrNotPrivate => 404
  | .alreadyMember => 200
  | .bannedPending => 403
  | .cooldownActive _ => 400
  | .alreadySubmitted _ => 200
  | .submitted _ => 200

/-- Tail of `requestJoinPrivate` (groupController.js lines 183-196): echo
an already-pending request, else upsert the pair to pending (reopening a
declined request) and return its id. -/
def requestJoinUpsert (db : DB) (g : Group) (uid : Nat) : DB × RJPOut :=
  match findReqByPair db g.id uid with
  | some r =>
      if r.status == .pending then (db, .alreadySubmitted r.id)
      else
        ({ db with reqs := updateReq db.reqs r.id (fun q => { q with status := .pending }) },
         .submitted r.id)
  | none =>
      ({ db with
          reqs := db.reqs ++ [⟨db.nextId, g.id, uid, .pending⟩],
          nextId := db.nextId + 1 },
       .submitted db.nextId)

/-- `requestJoinPrivate` (groupController.js lines 147-200): id guard,
group must exist and be private, members succeed idempotently, banned
users get a pending request plus 403, then the 48h cooldown against the
most recent LeaveHistory entry (remaining hours = ceiling of the
remainder; the code computes `(Date.now()-leftAt)/36e5` in fractional
hours, modelled exactly in milliseconds), then echo/upsert the request. -/
def requestJoinPrivate (db : DB) (gid : RId) (uid now : Nat) : DB × RJPOut :=
  match gid with
  | .malformed _ => (db, .invalidGroupId)
  | .valid gidN =>
    match findGroup db gidN with
    | none => (db, .notFoundOrNotPrivate)
    | some g =>
      if g.type != .priv then (db, .notFoundOrNotPrivate)
      else if uid ∈ g.members then (db, .alreadyMember)
      else
        match ensureNotBanned db g uid with
        | some db' => (db', .bannedPending)
        | none =>
          match ((db.leaves.filter (fun h => h.group == g.id && h.user == uid)).map
                  LeaveHistory.leftAt).max? with
          | some leftAt =>
              if now - leftAt < cooldownMs then
                (db, .cooldownActive ((cooldownMs - (now - leftAt) + (msPerHour - 1)) / msPerHour))
              else requestJoinUpsert db g uid
          | none => requestJoinUpsert db g uid

/-- `decision` enum (zod body schema of decideJoinRequest). -/
inductive Decision where
  | approve
  | decline
deriving DecidableEq, Repr

/-- Outcomes of `decideJoinRequest`
(POST /groups/requests/:requestId/decision). -/
inductive DecideOut where
  | invalidRequestId
  | reqNotFound
  | groupNotFound
  | onlyOwner
  | alreadyResolved (st : RStatus)
  | groupFull
  | decided (st : RStatus)
deriving DecidableEq, Repr

def DecideOut.status : DecideOut → Nat
  | .invalidRequestId => 400
  | .reqNotFound => 404
  | .groupNotFound => 404
  | .onlyOwner => 403
  | .alreadyResolved _ => 409
  | .groupFull => 400
  | .decided _ => 200

/-- `decideJoinRequest` (groupController.js lines 239-305): id guard, load
request then group, owner-only, only pending requests can be decided
(409 carrying the resolved status), approve checks capacity then in one
atomic update `$pull`s the user from `bannedUsers` and `$addToSet`s them
into `members`, then marks the request; decline just marks it. -/
def decideJoinRequest (db : DB) (rid : RId) (callerId : Nat) (decision : Decision) :
    DB × DecideOut :=
  match rid with
  | .malformed _ => (db, .invalidRequestId)
  | .valid ridN =>
    match findReqById db ridN with
    | none => (db, .reqNotFound)
    | some jr =>
      match findGroup db jr.group with
      | none => (db, .groupNotFound)
      | some g =>
        if g.owner != callerId then (db, .onlyOwner)
        else if jr.status != .pending then (db, .alreadyResolved jr.status)
        else
          match decision with
          | .approve =>
              if !capacityOk g then (db, .groupFull)
              else
                let db1 := { db with
                  groups := updateGroup db.groups g.id (fun h =>
                    { h with
                        bannedUsers := h.bannedUsers.filter (fun u => u != jr.user),
                        members := if jr.user ∈ h.members then h.members
                                   else h.members ++ [jr.user] }) }
                ({ db1 with
                    reqs := updateReq db1.reqs jr.id (fun q => { q with status := .approved }) },
                 .decided .approved)
          | .decline =>
              ({ db with
                  reqs := updateReq db.reqs jr.id (fun q => { q with status := .declined }) },
               .decided .declined)

/-- Outcomes of `leaveGroup` (POST /groups/:groupId/leave). -/
inductive LeaveOut where
  | invalidGroupId
  | notFound
  | notMember
  | ownerMustTransfer
  | left
deriving DecidableEq, Repr

def LeaveOut.status : LeaveOut → Nat
  | .invalidGroupId => 400
  | .notFound => 404
  | .notMember => 400
  | .ownerMustTransfer => 400
  | .left => 200

/-- The literal response message of each `leaveGroup` return site. -/
def LeaveOut.msg : LeaveOut → String
  | .invalidGroupId => "Invalid groupId"
  | .notFound => "Group not found"
  | .notMember => "Not a member"
  | .ownerMustTransfer => "Owner must transfer ownership before leaving"
  | .left => "Left group"

/-- `leaveGroup` (groupController.js lines 308-335): id guard, group must
exist, caller must be a member, the current owner cannot leave (distinct
message, status 400); else remove the member (splice at the found index =
erase first occurrence) and, for private groups only, append a
LeaveHistory record timestamped now. -/
def leaveGroup (db : DB) (gid : RId) (uid now : Nat) : DB × LeaveOut :=
  match gid with
  | .malformed _ => (db, .invalidGroupId)
  | .valid gidN =>
    match findGroup db gidN with
    | none => (db, .notFound)
    | some g =>
      if uid ∉ g.members then (db, .notMember)
      else if g.owner == uid then (db, .ownerMustTransfer)
      else
        let db1 := { db with
          groups := updateGroup db.groups g.id (fun h =>
            { h with members := h.members.erase uid }) }
        if g.type == .priv then
          ({ db1 with leaves := db1.leaves ++ [⟨g.id, uid, now⟩] }, .left)
        else (db1, .left)

/-- Outcomes of `banishMember` (POST /groups/:groupId/banish). -/
inductive BanishOut where
  | invalidGroupId
  | invalidUserId
  | notFound
  | onlyOwner
  | selfBanish
  | alreadyBanned
  | notCurrentMember
  | banished
deriving DecidableEq, Repr

def BanishOut.status : BanishOut → Nat
  | .invalidGroupId => 400
  | .invalidUserId => 400
  | .notFound => 404
  | .onlyOwner => 403
  | .selfBanish => 400
  | .alreadyBanned => 200
  | .notCurrentMember => 400
  | .banished => 200

/-- `banishMember` (groupController.js lines 338-368): id guards, group
must exist, owner-only, owner cannot banish self, already-banned succeeds
idempotently, a target neither member nor banned fails; else the target
is filtered out of `members` (the isMember guard holds on this path) and
pushed onto `bannedUsers`. -/
def banishMember (db : DB) (gid : RId) (callerId : Nat) (userId : RId) : DB × BanishOut :=
  match gid with
  | .malformed _ => (db, .invalidGroupId)
  | .valid gidN =>
    match userId with
    | .malformed _ => (db, .invalidUserId)
    | .valid target =>
      match findGroup db gidN with
      | none => (db, .notFound)
      | some g =>
        if g.owner != callerId then (db, .onlyOwner)
        else if target == callerId then (db, .selfBanish)
        else if target ∈ g.bannedUsers then (db, .alreadyBanned)
        else if target ∉ g.members then (db, .notCurrentMember)
        else
          ({ db with
              groups := updateGroup db.groups g.id (fun h =>
                { h with
                    members := h.members.filter (fun m => m != target),
                    bannedUsers := h.bannedUsers ++ [target] }) },
           .banished)

/-- Outcomes of `transferOwnership` (POST /groups/:groupId/transfer). -/
inductive TransferOut where
  | invalidGroupId
  | notFound
  | onlyOwner
  | invalidNewOwnerId
  | newOwnerNotMember
  | transferred
deriving DecidableEq, Repr

def TransferOut.status : TransferOut → Nat
  | .invalidGroupId => 400
  | .notFound => 404
  | .onlyOwner => 403
  | .invalidNewOwnerId => 400
  | .newOwnerNotMember => 400
  | .transferred => 200

/-- `transferOwnership` (groupController.js lines 371-394): id guard,
group must exist, owner-only, new owner id must be well-formed and a
current member; then the owner field is reassigned (members unchanged,
so the former owner stays an ordinary member). -/
def transferOwnership (db : DB) (gid : RId) (callerId : Nat) (newOwnerId : RId) :
    DB × TransferOut :=
  match gid with
  | .malformed _ => (db, .invalidGroupId)
  | .valid gidN =>
    match findGroup db gidN with
    | none => (db, .notFound)
    | some g =>
      if g.owner != callerId then (db, .onlyOwner)
      else
        match newOwnerId with
        | .malformed _ => (db, .invalidNewOwnerId)
        | .valid newOwner =>
          if newOwner ∉ g.members then (db, .newOwnerNotMember)
          else
            ({ db with
                groups := updateGroup db.groups g.id (fun h => { h with owner := newOwner }) },
             .transferred)

/-- Abstraction of `sha256` (src/utils/token.js): a deterministic one-way
hex digest of the raw token; the claims depend only on its determinism
and on hash-equality lookups, modelled by an executable injective tag. -/
def sha256 (s : String) : String := String.append "sha256:" s

/-- `Invite.findOne({tokenHash})` (`tokenHash` is unique by schema). -/
def findInvite (db : DB) (tokenHash : String) : Option Invite :=
  db.invites.find? (fun iv => iv.tokenHash == tokenHash)

/-- `invite.save()`: update the single invite document (identified by its
unique `tokenHash`). -/
def updateInvite : List Invite → String → (Invite → Invite) → List Invite
  | [], _, _ => []
  | iv :: t, h, f => if iv.tokenHash == h then f iv :: t else iv :: updateInvite t h f

/-- Outcomes of `joinWithInvite` (POST /groups/join-with-invite). -/
inductive InviteOut where
  | missingToken
  | invalidInvite
  | expired
  | exhausted
  | groupNotFound
  | bannedForbidden
  | groupFull
  | joinedViaInvite (gid : Nat)
deriving DecidableEq, Repr

def InviteOut.status : InviteOut → Nat
  | .missingToken => 400
  | .invalidInvite => 400
  | .expired => 400
  | .exhausted => 400
  | .groupNotFound => 404
  | .bannedForbidden => 403
  | .groupFull => 400
  | .joinedViaInvite _ => 200

/-- `joinWithInvite` (groupController.js lines 470-508): nonempty token,
lookup by hash — a missing or `disabled` invite is the generic
"Invalid invite", then "expired" (`expiresAt <= now`), then "exhausted"
(`uses >= maxUses`); the group must exist; a banned redeemer gets a bare
403 (no JoinRequest upsert and no invite mutation); then capacity; then
idempotent member add; finally uses is incremented and the invite is
disabled once spent (`uses >= maxUses` after the increment). -/
def joinWithInvite (db : DB) (uid : Nat) (token : String) (now : Nat) : DB × InviteOut :=
  if token.length < 1 then (db, .missingToken)
  else
    let tokenHash := sha256 token
    match findInvite db tokenHash with
    | none => (db, .invalidInvite)
    | some invite =>
      if invite.disabled then (db, .invalidInvite)
      else if invite.expiresAt ≤ now then (db, .expired)
      else if invite.maxUses ≤ invite.uses then (db, .exhausted)
      else
        match findGroup db invite.group with
        | none => (db, .groupNotFound)
        | some g =>
          if uid ∈ g.bannedUsers then (db, .bannedForbidden)
          else if !capacityOk g then (db, .groupFull)
          else
            let db1 :=
              if uid ∈ g.members then db
              else { db with
                groups := updateGroup db.groups g.id (fun h =>
                  { h with members := h.members ++ [uid] }) }
            ({ db1 with
                invites := updateInvite db1.invites tokenHash (fun iv =>
                  { iv with uses := iv.uses + 1, disabled := iv.maxUses ≤ iv.uses + 1 }) },
             .joinedViaInvite g.id)

/-- Modelled from the spec: `src/utils/crypto.js` (`encryptMessage`) is
not present under src/ — only its caller messageController.js is. §6
specifies the Message Codec as an opaque collaborator whose blob
round-trips exactly (`decrypt(encrypt(text)) = text`); modelled as an
executable invertible coding. -/
def encryptMessage (t : String) : String := String.mk t.data.reverse

/-- Modelled from the spec: inverse half of the opaque Message Codec
(`src/utils/crypto.js` is not present under src/); `decrypt(blob)`
recovers the plaintext exactly. -/
def decryptMessage (b : String) : String := String.mk b.data.reverse

/-- Outcomes of `sendMessage` (POST /messages/:groupId). -/
inductive SendOut where
  | validationFailed
  | groupNotFound
  | notMemberForbidden
  | sent (mid : Nat) (createdAt : Nat)
deriving DecidableEq, Repr

def SendOut.status : SendOut → Nat
  | .validationFailed => 400
  | .groupNotFound => 404
  | .notMemberForbidden => 403
  | .sent _ _ => 201

/-- `sendMessage` (messageController.js lines 19-45): zod text bounds
(1..5000), group must exist, members-only, then the text is encrypted at
write time and a Message row appended with the server timestamp; the
response carries id and createdAt only (no plaintext echo). -/
def sendMessage (db : DB) (gid senderId : Nat) (text : String) (now : Nat) : DB × SendOut :=
  if text.length < 1 || 5000 < text.length then (db, .validationFailed)
  else
    match findGroup db gid with
    | none => (db, .groupNotFound)
    | some g =>
      if senderId ∉ g.members then (db, .notMemberForbidden)
      else
        let m : Message := ⟨db.nextId, g.id, senderId, encryptMessage text, now⟩
        ({ db with msgs := db.msgs ++ [m], nextId := db.nextId + 1 }, .sent m.id now)

/-- One row of the `listMessages` response: id, sender identity
(abstracted to the sender's user id), createdAt, decrypted text. -/
structure MsgView where
  id : Nat
  sender : Nat
  createdAt : Nat
  text : String
deriving DecidableEq, Repr

/-- Outcomes of `listMessages` (GET /messages/:groupId). -/
inductive MListOut where
  | groupNotFound
  | notMemberForbidden
  | listed (out : List MsgView)
deriving DecidableEq, Repr

/-- The Mongo filter of `listMessages`: this group's messages, restricted
to `createdAt > since` when `since` is given. -/
def sinceFilter (gidN : Nat) (since : Option Nat) (m : Message) : Bool :=
  m.group == gidN &&
    match since with
    | some s => decide (s < m.createdAt)
    | none => true

/-- One response row of `listMessages`: minimal sender identity attached,
payload decrypted at read time. -/
def msgView (m : Message) : MsgView :=
  ⟨m.id, m.sender, m.createdAt, decryptMessage m.payload⟩

/-- `listMessages` (messageController.js lines 49-82): group must exist,
members-only; returns the group's messages — filtered to
`createdAt > since` when `since` is given — sorted ascending by
createdAt, each payload decrypted and the sender attached. Read-only. -/
def listMessages (db : DB) (gid callerId : Nat) (since : Option Nat) : MListOut :=
  match findGroup db gid with
  | none => .groupNotFound
  | some g =>
    if callerId ∉ g.members then .notMemberForbidden
    else
      .listed ((List.insertionSort (fun a b : Message => a.createdAt ≤ b.createdAt)
        (db.msgs.filter (sinceFilter g.id since))).map msgView)

/-- One Membership Engine operation (the eight named by spec §4.1 that
mutate groups), with its request parameters and call time. -/
inductive Op where
  | opCreate (ownerId : Nat) (name : String) (type : GType) (maxMembers : Nat)
      (init : List RId)
  | opJoinOpen (gid : RId) (uid : Nat)
  | opRequestJoin (gid : RId) (uid now : Nat)
  | opDecide (rid : RId) (callerId : Nat) (d : Decision)
  | opLeave (gid : RId) (uid now : Nat)
  | opBanish (gid : RId) (callerId : Nat) (target : RId)
  | opTransfer (gid : RId) (callerId : Nat) (newOwner : RId)
  | opRedeemInvite (uid : Nat) (token : String) (now : Nat)
deriving Repr

/-- The store after executing one Membership Engine operation. -/
def step (db : DB) : Op → DB
  | .opCreate ownerId name type maxMembers init =>
      (createGroup db ownerId name type maxMembers init).1
  | .opJoinOpen gid uid => (joinOpenGroup db gid uid).1
  | .opRequestJoin gid uid now => (requestJoinPrivate db gid uid now).1
  | .opDecide rid callerId d => (decideJoinRequest db rid callerId d).1
  | .opLeave gid uid now => (leaveGroup db gid uid now).1
  | .opBanish gid callerId target => (banishMember db gid callerId target).1
  | .opTransfer gid callerId newOwner => (transferOwnership db gid callerId newOwner).1
  | .opRedeemInvite uid token now => (joinWithInvite db uid token now).1

/-! ## Invariants and basic lemmas -/

/-- Spec §3 invariant: `members ∩ banned = ∅`. -/
def disjointMB (g : Group) : Prop := ∀ u ∈ g.members, u ∉ g.bannedUsers

/-- Spec §3 invariant: `capacity = 0 ∨ |members| ≤ capacity`. -/
def capInv (g : Group) : Prop := g.maxMembers = 0 ∨ g.members.length ≤ g.maxMembers

theorem updateGroup_mem {l : List Group} {gid : Nat} {f : Group → Group} {g : Group}
    (hfind : l.find? (fun h => h.id == gid) = some g) :
    ∀ x ∈ updateGroup l gid f, x ∈ l ∨ x = f g := by
  induction l with
  | nil => simp [updateGroup]
  | cons a t ih =>
    intro x hx
    by_cases h : a.id == gid
    · simp only [List.find?_cons, h] at hfind
      obtain rfl : a = g := by injection hfind
      simp only [updateGroup, h, if_pos] at hx
      rcases List.mem_cons.mp hx with rfl | hx'
      · exact Or.inr rfl
      · exact Or.inl (List.mem_cons_of_mem _ hx')
    · simp only [List.find?_cons, h, Bool.false_eq_true, if_neg] at hfind
      simp only [updateGroup, h] at hx
      rcases List.mem_cons.mp hx with rfl | hx'
      · exact Or.inl (List.mem_cons_self _ _)
      · rcases ih hfind x hx' with h' | h'
        · exact Or.inl (List.mem_cons_of_mem _ h')
        · exact Or.inr h'

theorem findGroup_mem {db : DB} {gid : Nat} {g : Group} (h : findGroup db gid = some g) :
    g ∈ db.groups :=
  List.mem_of_find?_eq_some h

theorem findGroup_id {db : DB} {gid : Nat} {g : Group} (h : findGroup db gid = some g) :
    g.id = gid := by
  have := List.find?_some h
  simpa using this

/-- `upsertPendingReq` touches only `reqs` and `nextId`. -/
theorem upsertPendingReq_groups (db : DB) (gid uid : Nat) :
    (upsertPendingReq db gid uid).groups = db.groups := by
  unfold upsertPendingReq
  cases findReqByPair db gid uid <;> rfl

theorem upsertPendingReq_leaves (db : DB) (gid uid : Nat) :
    (upsertPendingReq db gid uid).leaves = db.leaves := by
  unfold upsertPendingReq
  cases findReqByPair db gid uid <;> rfl

theorem requestJoinUpsert_groups (db : DB) (g : Group) (uid : Nat) :
    (requestJoinUpsert db g uid).1.groups = db.groups := by
  unfold requestJoinUpsert
  cases h : findReqByPair db g.id uid with
  | none => rfl
  | some r => by_cases hp : r.status == .pending <;> simp [hp]

/-- Transport a per-group property through a single-document update: every
group in the updated store is either an untouched old group or the image
of the found group. -/
theorem forall_updateGroup {P : Group → Prop} {l : List Group} {gid : Nat}
    {f : Group → Group} {g : Group}
    (hfind : l.find? (fun h => h.id == gid) = some g)
    (hall : ∀ x ∈ l, P x) (hfg : P (f g)) :
    ∀ x ∈ updateGroup l gid f, P x := by
  intro x hx
  rcases updateGroup_mem hfind x hx with h | rfl
  · exact hall x h
  · exact hfg

theorem ensureNotBanned_some_groups {db : DB} {g : Group} {uid : Nat} {db' : DB}
    (h : ensureNotBanned db g uid = some db') : db'.groups = db.groups := by
  unfold ensureNotBanned at h
  split at h
  · cases h
    exact upsertPendingReq_groups db g.id uid
  · cases h

theorem ensureNotBanned_none {db : DB} {g : Group} {uid : Nat}
    (h : ensureNotBanned db g uid = none) : uid ∉ g.bannedUsers := by
  unfold ensureNotBanned at h
  split at h
  · cases h
  · assumption

/-- Rephrase `findGroup` as a first-match keyed by the found group's own
id, the form `updateGroup` lemmas consume. -/
theorem findGroup_find_self {db : DB} {gid : Nat} {g : Group}
    (h : findGroup db gid = some g) :
    db.groups.find? (fun x => x.id == g.id) = some g := by
  rw [findGroup_id h]
  exact h

/-- C1: for every group and every Membership Engine operation, the
invariant `members ∩ banned = ∅` is preserved: if every group in the
store satisfies `disjointMB` before the operation, every group does
after (banish moves the target from members to banned, approve removes
the user from banned while adding to members). -/
theorem members_banned_disjoint_preserved (db : DB) (op : Op)
    (hinv : ∀ g ∈ db.groups, disjointMB g) :
    ∀ g' ∈ (step db op).groups, disjointMB g' := by
  intro g' hg'
  cases op with
  | opCreate ownerId name ty mm init =>
    simp only [step] at hg'
    unfold createGroup at hg'
    simp only [] at hg'
    repeat' split at hg'
    all_goals try exact hinv g' hg'
    rcases List.mem_append.mp hg' with h | h
    · exact hinv g' h
    · simp only [List.mem_singleton] at h
      subst h
      intro u _ hb
      simp at hb
  | opJoinOpen gid uid =>
    simp only [step] at hg'
    unfold joinOpenGroup at hg'
    repeat' split at hg'
    all_goals try exact hinv g' hg'
    · rename_i db' hsome
      dsimp only at hg'
      rw [ensureNotBanned_some_groups hsome] at hg'
      exact hinv g' hg'
    · rename_i g hfind hty x hnb hmem hcap
      refine forall_updateGroup (findGroup_find_self hfind) hinv ?_ g' hg'
      intro u hu hb
      rcases List.mem_append.mp hu with h | h
      · exact hinv g (findGroup_mem hfind) u h hb
      · simp only [List.mem_singleton] at h
        subst h
        exact ensureNotBanned_none hnb hb
  | opRequestJoin gid uid now =>
    simp only [step] at hg'
    unfold requestJoinPrivate at hg'
    repeat' split at hg'
    all_goals try exact hinv g' hg'
    all_goals try (rw [requestJoinUpsert_groups] at hg'; exact hinv g' hg')
    rename_i db' hsome
    dsimp only at hg'
    rw [ensureNotBanned_some_groups hsome] at hg'
    exact hinv g' hg'
  | opDecide rid callerId d =>
    simp only [step] at hg'
    unfold decideJoinRequest at hg'
    repeat' split at hg'
    all_goals try exact hinv g' hg'
    rename_i x2 jr hjr x1 g hfind hown hpend dd hcap
    simp only [] at hg'
    refine forall_updateGroup (findGroup_find_self hfind) hinv ?_ g' hg'
    intro u hu hb
    simp only [List.mem_filter, bne_iff_ne, ne_eq, decide_not, Bool.not_eq_eq_eq_not,
      Bool.not_true, decide_eq_false_iff_not] at hb
    obtain ⟨hb', hne⟩ := hb
    split at hu
    · exact hinv g (findGroup_mem hfind) u hu hb'
    · rcases List.mem_append.mp hu with h | h
      · exact hinv g (findGroup_mem hfind) u h hb'
      · simp only [List.mem_singleton] at h
        exact hne h
  | opLeave gid uid now =>
    simp only [step] at hg'
    unfold leaveGroup at hg'
    repeat' split at hg'
    all_goals try exact hinv g' hg'
    all_goals
      rename_i x g hfind hmem hown hty
    all_goals
      simp only [] at hg'
    all_goals
      refine forall_updateGroup (findGroup_find_self hfind) hinv ?_ g' hg'
    all_goals
      intro u hu hb
    all_goals
      exact hinv g (findGroup_mem hfind) u (List.mem_of_mem_erase hu) hb
  | opBanish gid callerId target =>
    simp only [step] at hg'
    unfold banishMember at hg'
    repeat' split at hg'
    all_goals try exact hinv g' hg'
    rename_i tgt x g hfind hown hself hnb hmem
    refine forall_updateGroup (findGroup_find_self hfind) hinv ?_ g' hg'
    intro u hu hb
    simp only [List.mem_filter, bne_iff_ne, ne_eq, decide_not, Bool.not_eq_eq_eq_not,
      Bool.not_true, decide_eq_false_iff_not] at hu
    obtain ⟨hu', hne⟩ := hu
    rcases List.mem_append.mp hb with h | h
    · exact hinv g (findGroup_mem hfind) u hu' h
    · simp only [List.mem_singleton] at h
      exact hne h
  | opTransfer gid callerId newOwner =>
    simp only [step] at hg'
    unfold transferOwnership at hg'
    repeat' split at hg'
    all_goals try exact hinv g' hg'
    rename_i x g hfind hown gid2 newOwnerN hmem
    refine forall_updateGroup (findGroup_find_self hfind) hinv ?_ g' hg'
    intro u hu hb
    exact hinv g (findGroup_mem hfind) u hu hb
  | opRedeemInvite uid token now =>
    simp only [step] at hg'
    unfold joinWithInvite at hg'
    simp only [] at hg'
    repeat' split at hg'
    all_goals try exact hinv g' hg'
    rename_i hd1 hd2 hd3 xg g hfind hnb hcap hmem
    refine forall_updateGroup (findGroup_find_self hfind) hinv ?_ g' hg'
    intro u hu hb
    rcases List.mem_append.mp hu with h | h
    · exact hinv g (findGroup_mem hfind) u h hb
    · simp only [List.mem_singleton] at h
      subst h
      exact hnb hb

theorem filterMap_toValid_length {l : List RId}
    (h : l.find? (fun i => !i.isValidObjectId) = none) :
    (l.filterMap (fun i => match i with
      | RId.valid n => some n
      | RId.malformed _ => none)).length = l.length := by
  induction l with
  | nil => rfl
  | cons a t ih =>
    cases a with
    | valid n =>
      have h' : t.find? (fun i => !i.isValidObjectId) = none := by
        simpa [List.find?_cons, RId.isValidObjectId] using h
      simp [List.filterMap_cons, ih h']
    | malformed s =>
      exfalso
      simp [List.find?_cons, RId.isValidObjectId] at h

/-- Unpack a passed `capacityOk` check. -/
theorem capacityOk_spec {g : Group} (h : capacityOk g = true) :
    g.maxMembers = 0 ∨ g.members.length < g.maxMembers := by
  simpa [capacityOk] using h

/-- C2: for every group and every Membership Engine operation executed
sequentially, the invariant `capacity = 0 ∨ |members| ≤ capacity` is
preserved: every member-adding path first checks `capacityOk` (capacity 0
or strictly-below count), and no operation leaves the count above a
nonzero capacity. -/
theorem capacity_inv_preserved (db : DB) (op : Op)
    (hinv : ∀ g ∈ db.groups, capInv g) :
    ∀ g' ∈ (step db op).groups, capInv g' := by
  intro g' hg'
  cases op with
  | opCreate ownerId name ty mm init =>
    simp only [step] at hg'
    unfold createGroup at hg'
    simp only [] at hg'
    repeat' split at hg'
    all_goals try exact hinv g' hg'
    rename_i hsch x hvalid hcap
    rcases List.mem_append.mp hg' with h | h
    · exact hinv g' h
    · simp only [List.mem_singleton] at h
      subst h
      unfold capInv
      simp only [List.length_cons, filterMap_toValid_length hvalid]
      simp only [Bool.and_eq_true, bne_iff_ne, ne_eq, decide_eq_true_eq, not_and, not_lt] at hcap
      by_cases hmm : mm = 0
      · exact Or.inl hmm
      · exact Or.inr (by have := hcap hmm; omega)
  | opJoinOpen gid uid =>
    simp only [step] at hg'
    unfold joinOpenGroup at hg'
    repeat' split at hg'
    all_goals try exact hinv g' hg'
    · rename_i db' hsome
      dsimp only at hg'
      rw [ensureNotBanned_some_groups hsome] at hg'
      exact hinv g' hg'
    · rename_i g hfind hty x hnb hmem hcap
      refine forall_updateGroup (findGroup_find_self hfind) hinv ?_ g' hg'
      have hcap' := capacityOk_spec (by simpa using hcap)
      unfold capInv
      simp only [List.length_append, List.length_singleton]
      rcases hcap' with h0 | hlt
      · exact Or.inl h0
      · exact Or.inr (by omega)
  | opRequestJoin gid uid now =>
    simp only [step] at hg'
    unfold requestJoinPrivate at hg'
    repeat' split at hg'
    all_goals try exact hinv g' hg'
    all_goals try (rw [requestJoinUpsert_groups] at hg'; exact hinv g' hg')
    rename_i db' hsome
    dsimp only at hg'
    rw [ensureNotBanned_some_groups hsome] at hg'
    exact hinv g' hg'
  | opDecide rid callerId d =>
    simp only [step] at hg'
    unfold decideJoinRequest at hg'
    repeat' split at hg'
    all_goals try exact hinv g' hg'
    rename_i x2 jr hjr x1 g hfind hown hpend dd hcap
    simp only [] at hg'
    refine forall_updateGroup (findGroup_find_self hfind) hinv ?_ g' hg'
    have hcap' := capacityOk_spec (by simpa using hcap)
    unfold capInv
    dsimp only
    split
    · rcases hcap' with h0 | hlt
      · exact Or.inl h0
      · exact Or.inr (by omega)
    · simp only [List.length_append, List.length_singleton]
      rcases hcap' with h0 | hlt
      · exact Or.inl h0
      · exact Or.inr (by omega)
  | opLeave gid uid now =>
    simp only [step] at hg'
    unfold leaveGroup at hg'
    repeat' split at hg'
    all_goals try exact hinv g' hg'
    all_goals
      rename_i x g hfind hmem hown hty
    all_goals
      simp only [] at hg'
    all_goals
      refine forall_updateGroup (findGroup_find_self hfind) hinv ?_ g' hg'
    all_goals
      rcases hinv g (findGroup_mem hfind) with h0 | hle
    · exact Or.inl h0
    · exact Or.inr (le_trans (List.Sublist.length_le (List.erase_sublist _ _)) hle)
    · exact Or.inl h0
    · exact Or.inr (le_trans (List.Sublist.length_le (List.erase_sublist _ _)) hle)
  | opBanish gid callerId target =>
    simp only [step] at hg'
    unfold banishMember at hg'
    repeat' split at hg'
    all_goals try exact hinv g' hg'
    rename_i tgt x g hfind hown hself hnb hmem
    refine forall_updateGroup (findGroup_find_self hfind) hinv ?_ g' hg'
    rcases hinv g (findGroup_mem hfind) with h0 | hle
    · exact Or.inl h0
    · exact Or.inr (le_trans (List.Sublist.length_le (List.filter_sublist _)) hle)
  | opTransfer gid callerId newOwner =>
    simp only [step] at hg'
    unfold transferOwnership at hg'
    repeat' split at hg'
    all_goals try exact hinv g' hg'
    rename_i x g hfind hown gid2 newOwnerN hmem
    refine forall_updateGroup (findGroup_find_self hfind) hinv ?_ g' hg'
    exact hinv g (findGroup_mem hfind)
  | opRedeemInvite uid token now =>
    simp only [step] at hg'
    unfold joinWithInvite at hg'
    simp only [] at hg'
    repeat' split at hg'
    all_goals try exact hinv g' hg'
    rename_i hd1 hd2 hd3 xg g hfind hnb hcap hmem
    refine forall_updateGroup (findGroup_find_self hfind) hinv ?_ g' hg'
    have hcap' := capacityOk_spec (by simpa using hcap)
    unfold capInv
    simp only [List.length_append, List.length_singleton]
    rcases hcap' with h0 | hlt
    · exact Or.inl h0
    · exact Or.inr (by omega)

instance (g : Group) : Decidable (disjointMB g) :=
  inferInstanceAs (Decidable (∀ u ∈ g.members, u ∉ g.bannedUsers))

instance (g : Group) : Decidable (capInv g) :=
  inferInstanceAs (Decidable (g.maxMembers = 0 ∨ g.members.length ≤ g.maxMembers))

/-- A concrete sample store used to witness the theorems: one open group
(capacity 3, members 1 and 2, user 4 banned) and one private group
(unlimited, member 1, user 5 banned), one pending request, one invite. -/
def gExOpen : Group := ⟨10, "general", .open', 1, 3, [1, 2], [4]⟩

def gExPriv : Group := ⟨11, "secret", .priv, 1, 0, [1, 2], [5]⟩

def dbEx : DB :=
  { users := [1, 2, 3, 4, 5],
    groups := [gExOpen, gExPriv],
    reqs := [⟨20, 10, 4, .pending⟩],
    invites := [⟨10, 1, sha256 "tok", 1, 0, 1000, false⟩],
    leaves := [⟨11, 3, 0⟩],
    msgs := [],
    nextId := 100 }

/-- Witness for C1 at a concrete store and operation: user 3 joins the
open group; the updated group keeps members and banned disjoint. -/
theorem members_banned_disjoint_preserved_witness :
    disjointMB ⟨10, "general", GType.open', 1, 3, [1, 2, 3], [4]⟩ :=
  members_banned_disjoint_preserved dbEx (Op.opJoinOpen (RId.valid 10) 3) (by decide)
    ⟨10, "general", GType.open', 1, 3, [1, 2, 3], [4]⟩ (by decide)

/-- Witness for C2 at a concrete store and operation: user 3 joins the
open group; the updated group stays within its capacity. -/
theorem capacity_inv_preserved_witness :
    capInv ⟨10, "general", GType.open', 1, 3, [1, 2, 3], [4]⟩ :=
  capacity_inv_preserved dbEx (Op.opJoinOpen (RId.valid 10) 3) (by decide)
    ⟨10, "general", GType.open', 1, 3, [1, 2, 3], [4]⟩ (by decide)

/-! ## C3: the ban-reentry rule -/

theorem find?_append_left_none {α} {p : α → Bool} {l₁ l₂ : List α}
    (h : l₁.find? p = none) : (l₁ ++ l₂).find? p = l₂.find? p := by
  rw [List.find?_append, h, Option.none_or]

/-- Updating (by `_id`) the first (group,user) match of a store with
Nodup request ids, through a transform preserving group and user, leaves
it the first match with the transformed value. -/
theorem findReqByPair_updateReq_self {l : List JoinRequest} {gid uid : Nat}
    {r : JoinRequest}
    (hnd : (l.map JoinRequest.id).Nodup)
    (hfind : l.find? (fun q => q.group == gid && q.user == uid) = some r)
    (f : JoinRequest → JoinRequest)
    (hg : (f r).group = r.group) (hu : (f r).user = r.user) :
    (updateReq l r.id f).find? (fun q => q.group == gid && q.user == uid) = some (f r) := by
  induction l with
  | nil => simp [List.find?] at hfind
  | cons a t ih =>
    by_cases hpa : (a.group == gid && a.user == uid) = true
    · simp only [List.find?_cons, hpa] at hfind
      obtain rfl : a = r := by injection hfind
      have hfr : ((f a).group == gid && (f a).user == uid) = true := by
        rw [hg, hu]; exact hpa
      rw [show updateReq (a :: t) a.id f = f a :: t by simp [updateReq]]
      rw [List.find?_cons, hfr]
    · have hfind' : t.find? (fun q => q.group == gid && q.user == uid) = some r := by
        simpa [List.find?_cons, hpa] using hfind
      have hrmem : r ∈ t := List.mem_of_find?_eq_some hfind'
      have haid : (a.id == r.id) = false := by
        rw [beq_eq_false_iff_ne]
        intro he
        exact (List.nodup_cons.mp hnd).1 (he ▸ List.mem_map_of_mem JoinRequest.id hrmem)
      rw [show updateReq (a :: t) r.id f = a :: updateReq t r.id f by
        simp [updateReq, haid]]
      rw [List.find?_cons]
      simp only [hpa]
      exact ih (List.nodup_cons.mp hnd).2 hfind'

/-- After `upsertPendingReq`, the (group,user) pair resolves to a pending
request (created fresh, or its status overwritten). -/
theorem upsertPendingReq_pending (db : DB) (gid uid : Nat)
    (hnd : (db.reqs.map JoinRequest.id).Nodup) :
    ∃ jr, findReqByPair (upsertPendingReq db gid uid) gid uid = some jr ∧
      jr.status = .pending := by
  unfold upsertPendingReq
  cases h : findReqByPair db gid uid with
  | some r =>
      exact ⟨_, findReqByPair_updateReq_self hnd h _ rfl rfl, rfl⟩
  | none =>
      refine ⟨⟨db.nextId, gid, uid, .pending⟩, ?_, rfl⟩
      show (db.reqs ++ [(⟨db.nextId, gid, uid, .pending⟩ : JoinRequest)]).find? _ = _
      rw [find?_append_left_none h]
      simp [List.find?_cons]

/-- C3: a banned user calling joinOpen or requestJoinPrivate gets the
(group,user) JoinRequest upserted to pending (created if absent,
overwriting any prior status) and then a 403 forbidden error; the group
list — in particular the group's members and banned sets — is unchanged. -/
theorem banned_user_join_upserts_pending_then_403 (db : DB) (gidN uid now : Nat)
    (g : Group)
    (hnd : (db.reqs.map JoinRequest.id).Nodup)
    (hfind : findGroup db gidN = some g)
    (hdis : disjointMB g)
    (hban : uid ∈ g.bannedUsers) :
    (g.type = .open' →
      (joinOpenGroup db (.valid gidN) uid).2 = .bannedPending ∧
      JoinOpenOut.status (joinOpenGroup db (.valid gidN) uid).2 = 403 ∧
      (joinOpenGroup db (.valid gidN) uid).1.groups = db.groups ∧
      ∃ jr, findReqByPair (joinOpenGroup db (.valid gidN) uid).1 g.id uid = some jr ∧
        jr.status = .pending) ∧
    (g.type = .priv →
      (requestJoinPrivate db (.valid gidN) uid now).2 = .bannedPending ∧
      RJPOut.status (requestJoinPrivate db (.valid gidN) uid now).2 = 403 ∧
      (requestJoinPrivate db (.valid gidN) uid now).1.groups = db.groups ∧
      ∃ jr, findReqByPair (requestJoinPrivate db (.valid gidN) uid now).1 g.id uid = some jr ∧
        jr.status = .pending) := by
  have hmem : uid ∉ g.members := fun hm => hdis uid hm hban
  constructor
  · intro hty
    have hjoin : joinOpenGroup db (.valid gidN) uid =
        (upsertPendingReq db g.id uid, .bannedPending) := by
      unfold joinOpenGroup
      dsimp only
      rw [hfind]
      unfold ensureNotBanned
      simp [hty, hban]
    rw [hjoin]
    exact ⟨rfl, rfl, upsertPendingReq_groups db g.id uid,
      upsertPendingReq_pending db g.id uid hnd⟩
  · intro hty
    have hrjp : requestJoinPrivate db (.valid gidN) uid now =
        (upsertPendingReq db g.id uid, .bannedPending) := by
      unfold requestJoinPrivate
      dsimp only
      rw [hfind]
      unfold ensureNotBanned
      simp [hty, hban, hmem]
    rw [hrjp]
    exact ⟨rfl, rfl, upsertPendingReq_groups db g.id uid,
      upsertPendingReq_pending db g.id uid hnd⟩

/-- Witness for C3: banned user 4 against the open group, banned user 5
against the private group. -/
theorem banned_user_join_upserts_pending_then_403_witness :
    ((joinOpenGroup dbEx (.valid 10) 4).2 = .bannedPending ∧
      JoinOpenOut.status (joinOpenGroup dbEx (.valid 10) 4).2 = 403 ∧
      (joinOpenGroup dbEx (.valid 10) 4).1.groups = dbEx.groups ∧
      ∃ jr, findReqByPair (joinOpenGroup dbEx (.valid 10) 4).1 gExOpen.id 4 = some jr ∧
        jr.status = .pending) ∧
    ((requestJoinPrivate dbEx (.valid 11) 5 0).2 = .bannedPending ∧
      RJPOut.status (requestJoinPrivate dbEx (.valid 11) 5 0).2 = 403 ∧
      (requestJoinPrivate dbEx (.valid 11) 5 0).1.groups = dbEx.groups ∧
      ∃ jr, findReqByPair (requestJoinPrivate dbEx (.valid 11) 5 0).1 gExPriv.id 5 = some jr ∧
        jr.status = .pending) :=
  ⟨(banned_user_join_upserts_pending_then_403 dbEx 10 4 0 gExOpen (by decide) (by decide)
      (by decide) (by decide)).1 rfl,
   (banned_user_join_upserts_pending_then_403 dbEx 11 5 0 gExPriv (by decide) (by decide)
      (by decide) (by decide)).2 rfl⟩

/-! ## C4: decideRequest semantics -/

theorem findReqById_id {db : DB} {rid : Nat} {jr : JoinRequest}
    (h : findReqById db rid = some jr) : jr.id = rid := by
  have := List.find?_some h
  simpa using this

/-- Updating the found request (by its own `_id`) leaves it the first
match of the same id-lookup, now transformed. -/
theorem find?_updateReq_self {l : List JoinRequest} {rid : Nat} {r : JoinRequest}
    (hfind : l.find? (fun q => q.id == rid) = some r)
    (f : JoinRequest → JoinRequest) (hid : (f r).id = r.id) :
    (updateReq l r.id f).find? (fun q => q.id == rid) = some (f r) := by
  induction l with
  | nil => simp [List.find?] at hfind
  | cons a t ih =>
    by_cases hpa : (a.id == rid) = true
    · simp only [List.find?_cons, hpa] at hfind
      obtain rfl : a = r := by injection hfind
      rw [show updateReq (a :: t) a.id f = f a :: t by simp [updateReq]]
      rw [List.find?_cons, show ((f a).id == rid) = true by rw [hid]; exact hpa]
    · have hfind' : t.find? (fun q => q.id == rid) = some r := by
        simpa [List.find?_cons, hpa] using hfind
      have hrid : (r.id == rid) = true := by simpa using List.find?_some hfind'
      have haid : (a.id == r.id) = false := by
        rw [beq_eq_false_iff_ne]
        intro he
        have hr : r.id = rid := by simpa using hrid
        rw [he, hr] at hpa
        simp at hpa
      rw [show updateReq (a :: t) r.id f = a :: updateReq t r.id f by
        simp [updateReq, haid]]
      rw [List.find?_cons]
      simp only [hpa]
      exact ih hfind'

/-- Updating the found group (by its own `_id`) leaves it the first match
of the same id-lookup, now transformed. -/
theorem find?_updateGroup_self {l : List Group} {gid : Nat} {g : Group}
    (hfind : l.find? (fun h => h.id == gid) = some g)
    (f : Group → Group) (hid : (f g).id = g.id) :
    (updateGroup l g.id f).find? (fun h => h.id == gid) = some (f g) := by
  induction l with
  | nil => simp [List.find?] at hfind
  | cons a t ih =>
    by_cases hpa : (a.id == gid) = true
    · simp only [List.find?_cons, hpa] at hfind
      obtain rfl : a = g := by injection hfind
      rw [show updateGroup (a :: t) a.id f = f a :: t by simp [updateGroup]]
      rw [List.find?_cons, show ((f a).id == gid) = true by rw [hid]; exact hpa]
    · have hfind' : t.find? (fun h => h.id == gid) = some g := by
        simpa [List.find?_cons, hpa] using hfind
      have hgid : (g.id == gid) = true := by simpa using List.find?_some hfind'
      have haid : (a.id == g.id) = false := by
        rw [beq_eq_false_iff_ne]
        intro he
        have hr : g.id = gid := by simpa using hgid
        rw [he, hr] at hpa
        simp at hpa
      rw [show updateGroup (a :: t) g.id f = a :: updateGroup t g.id f by
        simp [updateGroup, haid]]
      rw [List.find?_cons]
      simp only [hpa]
      exact ih hfind'

/-- C4: with request and group loaded and the caller the owner —
(a) a non-pending request yields a 409 conflict carrying the resolved
status for either decision, with the whole store (request and group
included) unchanged; (b) approve against a full nonzero capacity fails
with the store unchanged (request still pending); (c) a successful
approve removes the user from banned (if present), adds them to members
idempotently, and marks the request approved; (d) after that approve,
every later decision on the same request by the owner is a 409 conflict
carrying `approved`, changing nothing. -/
theorem decideRequest_semantics (db : DB) (ridN callerId : Nat)
    (jr : JoinRequest) (g : Group)
    (hreq : findReqById db ridN = some jr)
    (hg : findGroup db jr.group = some g)
    (hown : g.owner = callerId) :
    (jr.status ≠ .pending → ∀ d,
      decideJoinRequest db (.valid ridN) callerId d = (db, .alreadyResolved jr.status) ∧
      DecideOut.status (.alreadyResolved jr.status) = 409) ∧
    (jr.status = .pending → capacityOk g = false →
      decideJoinRequest db (.valid ridN) callerId .approve = (db, .groupFull)) ∧
    (jr.status = .pending → capacityOk g = true →
      (decideJoinRequest db (.valid ridN) callerId .approve).2 = .decided .approved ∧
      (∃ g', findGroup (decideJoinRequest db (.valid ridN) callerId .approve).1 jr.group
          = some g' ∧
        g'.members = (if jr.user ∈ g.members then g.members else g.members ++ [jr.user]) ∧
        jr.user ∈ g'.members ∧
        g'.bannedUsers = g.bannedUsers.filter (fun u => u != jr.user) ∧
        jr.user ∉ g'.bannedUsers) ∧
      (∃ jr', findReqById (decideJoinRequest db (.valid ridN) callerId .approve).1 ridN
          = some jr' ∧
        jr'.status = .approved ∧ jr'.group = jr.group ∧ jr'.user = jr.user) ∧
      (∀ d', decideJoinRequest (decideJoinRequest db (.valid ridN) callerId .approve).1
          (.valid ridN) callerId d'
        = ((decideJoinRequest db (.valid ridN) callerId .approve).1,
           .alreadyResolved .approved))) := by
  have hgid : g.id = jr.group := findGroup_id hg
  refine ⟨?_, ?_, ?_⟩
  · intro hst d
    have hne : (jr.status != RStatus.pending) = true := by
      simpa using hst
    constructor
    · unfold decideJoinRequest
      dsimp only
      rw [hreq]
      dsimp only
      rw [hg]
      dsimp only
      simp [hown, hne]
    · rfl
  · intro hst hcap
    unfold decideJoinRequest
    dsimp only
    rw [hreq]
    dsimp only
    rw [hg]
    dsimp only
    simp [hown, hst, hcap]
  · intro hst hcap
    have hres : decideJoinRequest db (.valid ridN) callerId .approve =
        ({ db with
            groups := updateGroup db.groups g.id (fun h =>
              { h with
                  bannedUsers := h.bannedUsers.filter (fun u => u != jr.user),
                  members := if jr.user ∈ h.members then h.members
                             else h.members ++ [jr.user] }),
            reqs := updateReq db.reqs jr.id (fun q => { q with status := .approved }) },
         .decided .approved) := by
      unfold decideJoinRequest
      dsimp only
      rw [hreq]
      dsimp only
      rw [hg]
      dsimp only
      simp [hown, hst, hcap]
    rw [hres]
    have hfg := find?_updateGroup_self hg
      (fun h => { h with
          bannedUsers := h.bannedUsers.filter (fun u => u != jr.user),
          members := if jr.user ∈ h.members then h.members else h.members ++ [jr.user] })
      rfl
    have hfr := find?_updateReq_self hreq
      (fun q => { q with status := .approved }) rfl
    refine ⟨rfl, ?_, ?_, ?_⟩
    · refine ⟨_, hfg, rfl, ?_, rfl, ?_⟩
      · show jr.user ∈ (if jr.user ∈ g.members then g.members else g.members ++ [jr.user])
        split
        · next hin => exact hin
        · exact List.mem_append.mpr (Or.inr (List.mem_singleton.mpr rfl))
      · show jr.user ∉ g.bannedUsers.filter (fun u => u != jr.user)
        intro hmem
        have := (List.mem_filter.mp hmem).2
        simp at this
    · exact ⟨_, hfr, rfl, rfl, rfl⟩
    · intro d'
      unfold decideJoinRequest
      dsimp only
      rw [show findReqById
          ({ db with
              groups := updateGroup db.groups g.id _,
              reqs := updateReq db.reqs jr.id _ } : DB) ridN
          = some { jr with status := .approved } from hfr]
      dsimp only
      rw [show findGroup
          ({ db with
              groups := updateGroup db.groups g.id _,
              reqs := updateReq db.reqs jr.id _ } : DB)
          ({ jr with status := RStatus.approved } : JoinRequest).group
          = some _ from hfg]
      dsimp only
      simp [hown]

/-- Witness for C4 at the sample store: approving the pending request of
banned user 4 for the open group. -/
theorem decideRequest_semantics_witness :
    (decideJoinRequest dbEx (.valid 20) 1 .approve).2 = .decided .approved ∧
    (∃ g', findGroup (decideJoinRequest dbEx (.valid 20) 1 .approve).1 10 = some g' ∧
      g'.members = (if 4 ∈ gExOpen.members then gExOpen.members else gExOpen.members ++ [4]) ∧
      4 ∈ g'.members ∧
      g'.bannedUsers = gExOpen.bannedUsers.filter (fun u => u != 4) ∧
      4 ∉ g'.bannedUsers) ∧
    (∃ jr', findReqById (decideJoinRequest dbEx (.valid 20) 1 .approve).1 20 = some jr' ∧
      jr'.status = .approved ∧ jr'.group = 10 ∧ jr'.user = 4) ∧
    (∀ d', decideJoinRequest (decideJoinRequest dbEx (.valid 20) 1 .approve).1
        (.valid 20) 1 d'
      = ((decideJoinRequest dbEx (.valid 20) 1 .approve).1, .alreadyResolved .approved)) :=
  (decideRequest_semantics dbEx 20 1 ⟨20, 10, 4, .pending⟩ gExOpen (by decide) (by decide)
    rfl).2.2 rfl rfl

/-! ## C5: createGroup -/

theorem mem_jsSetDedup {l seen : List RId} {x : RId} (h : x ∈ jsSetDedup l seen) :
    x ∈ l ∧ x ∉ seen := by
  induction l generalizing seen with
  | nil => simp [jsSetDedup] at h
  | cons a t ih =>
    simp only [jsSetDedup] at h
    split at h
    · obtain ⟨h1, h2⟩ := ih h
      exact ⟨List.mem_cons_of_mem _ h1, h2⟩
    · rcases List.mem_cons.mp h with rfl | h'
      · exact ⟨List.mem_cons_self _ _, by assumption⟩
      · obtain ⟨h1, h2⟩ := ih h'
        exact ⟨List.mem_cons_of_mem _ h1, fun hs => h2 (List.mem_cons_of_mem _ hs)⟩

theorem jsSetDedup_nodup (l : List RId) : ∀ seen, (jsSetDedup l seen).Nodup := by
  induction l with
  | nil => intro seen; exact List.nodup_nil
  | cons a t ih =>
    intro seen
    simp only [jsSetDedup]
    split
    · exact ih _
    · exact List.nodup_cons.mpr
        ⟨fun hmem => (mem_jsSetDedup hmem).2 (List.mem_cons_self _ _), ih _⟩

/-- C5 (amended): createGroup dedups the initial ids and strips the owner
id; it fails when a remaining id is not a well-formed ObjectId (it never
consults the user store for existence), fails when owner + initial
members exceed a nonzero capacity, and otherwise creates one group whose
members are the owner followed by the deduplicated initial ids, with an
empty banned set; an empty initial list is not an error. -/
theorem createGroup_semantics (db : DB) (ownerId : Nat) (name : String) (ty : GType)
    (mm : Nat) (init : List RId)
    (hsch : groupCreateSchemaOk name mm = true) :
    (jsSetDedup (init.filter fun i => i.truthy && i != RId.valid ownerId) []).Nodup ∧
    RId.valid ownerId ∉ jsSetDedup (init.filter fun i => i.truthy && i != RId.valid ownerId) [] ∧
    ((∃ i ∈ jsSetDedup (init.filter fun i => i.truthy && i != RId.valid ownerId) [],
        i.isValidObjectId = false) →
      (∃ bad, (createGroup db ownerId name ty mm init).2 = .invalidInitialId bad ∧
        bad.isValidObjectId = false) ∧
      (createGroup db ownerId name ty mm init).1 = db) ∧
    ((∀ i ∈ jsSetDedup (init.filter fun i => i.truthy && i != RId.valid ownerId) [],
        i.isValidObjectId = true) →
      mm ≠ 0 →
      mm < 1 + (jsSetDedup (init.filter fun i => i.truthy && i != RId.valid ownerId) []).length →
      (createGroup db ownerId name ty mm init) = (db, .tooManyInitial)) ∧
    ((∀ i ∈ jsSetDedup (init.filter fun i => i.truthy && i != RId.valid ownerId) [],
        i.isValidObjectId = true) →
      (mm = 0 ∨
        1 + (jsSetDedup (init.filter fun i => i.truthy && i != RId.valid ownerId) []).length
          ≤ mm) →
      (createGroup db ownerId name ty mm init).2 = .created db.nextId ∧
      (createGroup db ownerId name ty mm init).1.groups = db.groups ++
        [⟨db.nextId, name, ty, ownerId, mm,
          ownerId ::
            (jsSetDedup (init.filter fun i => i.truthy && i != RId.valid ownerId)
              []).filterMap (fun i => match i with
                | RId.valid n => some n
                | RId.malformed _ => none), []⟩]) := by
  refine ⟨jsSetDedup_nodup _ [], ?_, ?_, ?_, ?_⟩
  · intro hmem
    have h1 := (mem_jsSetDedup hmem).1
    have := (List.mem_filter.mp h1).2
    simp at this
  · intro hbad
    have hfind : (jsSetDedup (init.filter fun i => i.truthy && i != RId.valid ownerId)
        []).find? (fun i => !i.isValidObjectId) ≠ none := by
      rw [Ne, List.find?_eq_none]
      push_neg
      obtain ⟨i, hi, hv⟩ := hbad
      exact ⟨i, hi, by simp [hv]⟩
    cases hf : (jsSetDedup (init.filter fun i => i.truthy && i != RId.valid ownerId)
        []).find? (fun i => !i.isValidObjectId) with
    | none => exact absurd hf hfind
    | some bad =>
      have hbadv : bad.isValidObjectId = false := by
        have := List.find?_some hf
        simpa using this
      have : createGroup db ownerId name ty mm init = (db, .invalidInitialId bad) := by
        unfold createGroup
        simp only [hsch, Bool.not_true, Bool.false_eq_true, if_false]
        simp only [hf]
      rw [this]
      exact ⟨⟨bad, rfl, hbadv⟩, rfl⟩
  · intro hall hmm hover
    have hf : (jsSetDedup (init.filter fun i => i.truthy && i != RId.valid ownerId)
        []).find? (fun i => !i.isValidObjectId) = none := by
      rw [List.find?_eq_none]
      intro x hx
      simp [hall x hx]
    unfold createGroup
    simp only [hsch, Bool.not_true, Bool.false_eq_true, if_false]
    simp only [hf]
    have : (mm != 0 && decide (1 +
        (jsSetDedup (init.filter fun i => i.truthy && i != RId.valid ownerId) []).length
        > mm)) = true := by
      simp [hmm]
      omega
    simp only [this, if_pos]
  · intro hall hcap
    have hf : (jsSetDedup (init.filter fun i => i.truthy && i != RId.valid ownerId)
        []).find? (fun i => !i.isValidObjectId) = none := by
      rw [List.find?_eq_none]
      intro x hx
      simp [hall x hx]
    have hcond : (mm != 0 && decide (1 +
        (jsSetDedup (init.filter fun i => i.truthy && i != RId.valid ownerId) []).length
        > mm)) = false := by
      rcases hcap with h0 | hle
      · simp [h0]
      · simp
        intro h
        omega
    unfold createGroup
    simp only [hsch, Bool.not_true, Bool.false_eq_true, if_false]
    simp only [hf, hcond, Bool.false_eq_true, if_neg]
    exact ⟨rfl, rfl⟩

/-- Witness for the amended C5: owner 1 with initial ids
[2, 2, owner, 3]: deduplicated to [2, 3], group created accordingly;
and independently an empty initial list creates a group too. -/
theorem createGroup_semantics_witness :
    (createGroup dbEx 1 "fresh" .priv 4 [.valid 2, .valid 2, .valid 1, .valid 3]).2
        = .created dbEx.nextId ∧
    (createGroup dbEx 1 "fresh" .priv 4 [.valid 2, .valid 2, .valid 1, .valid 3]).1.groups
        = dbEx.groups ++ [⟨dbEx.nextId, "fresh", .priv, 1, 4, [1, 2, 3], []⟩] :=
  (createGroup_semantics dbEx 1 "fresh" .priv 4 [.valid 2, .valid 2, .valid 1, .valid 3]
    (by decide)).2.2.2.2 (by decide) (by decide)

/-- C5 as stated is false: the code checks only ObjectId well-formedness
for initial member ids and never consults the user store, so a
well-formed id of a nonexistent user is accepted: with only user 1
existing, createGroup with initial member 2 succeeds and the created
group contains 2 as a member. -/
theorem createGroup_accepts_nonexistent_user :
    (2 ∉ (DB.mk [1] [] [] [] [] [] 0).users) ∧
    (createGroup (DB.mk [1] [] [] [] [] [] 0) 1 "g" .open' 0 [RId.valid 2]).2
        = .created 0 ∧
    (createGroup (DB.mk [1] [] [] [] [] [] 0) 1 "g" .open' 0 [RId.valid 2]).1.groups
        = [⟨0, "g", .open', 1, 0, [1, 2], []⟩] := by
  refine ⟨by decide, ?_, ?_⟩ <;> rfl

/-! ## C6: single-use invites -/

theorem find?_updateInvite_self {l : List Invite} {h : String} {iv : Invite}
    (hfind : l.find? (fun x => x.tokenHash == h) = some iv)
    (f : Invite → Invite) (hh : (f iv).tokenHash = iv.tokenHash) :
    (updateInvite l h f).find? (fun x => x.tokenHash == h) = some (f iv) := by
  induction l with
  | nil => simp [List.find?] at hfind
  | cons a t ih =>
    by_cases hpa : (a.tokenHash == h) = true
    · simp only [List.find?_cons, hpa] at hfind
      obtain rfl : a = iv := by injection hfind
      rw [show updateInvite (a :: t) h f = f a :: t by simp [updateInvite, hpa]]
      rw [List.find?_cons, show ((f a).tokenHash == h) = true by rw [hh]; exact hpa]
    · have hfind' : t.find? (fun x => x.tokenHash == h) = some iv := by
        simpa [List.find?_cons, hpa] using hfind
      rw [show updateInvite (a :: t) h f = a :: updateInvite t h f by
        simp [updateInvite, hpa]]
      rw [List.find?_cons]
      simp only [hpa]
      exact ih hfind'

/-- C6 (amended): the first redemption of a maxUses=1 invite by an
eligible user succeeds — the redeemer joins the group, uses becomes 1
and the invite is disabled — and every subsequent redemption attempt
with the same token, by any user at any time, fails with the generic
invalid-invite error (the `disabled` check precedes the `exhausted`
check), leaving the store unchanged. -/
theorem invite_single_use_semantics (db : DB) (uid : Nat) (token : String) (now : Nat)
    (iv : Invite) (g : Group)
    (htok : ¬ token.length < 1)
    (hfi : findInvite db (sha256 token) = some iv)
    (hmax : iv.maxUses = 1) (huses : iv.uses = 0) (hdis : iv.disabled = false)
    (hexp : now < iv.expiresAt)
    (hg : findGroup db iv.group = some g)
    (hnb : uid ∉ g.bannedUsers) (hcap : capacityOk g = true) :
    (joinWithInvite db uid token now).2 = .joinedViaInvite g.id ∧
    (∃ iv', findInvite (joinWithInvite db uid token now).1 (sha256 token) = some iv' ∧
      iv'.uses = 1 ∧ iv'.disabled = true) ∧
    (∃ g', findGroup (joinWithInvite db uid token now).1 iv.group = some g' ∧
      uid ∈ g'.members) ∧
    (∀ uid2 now2, joinWithInvite (joinWithInvite db uid token now).1 uid2 token now2
      = ((joinWithInvite db uid token now).1, .invalidInvite)) := by
  have hnexp : ¬ iv.expiresAt ≤ now := by omega
  have hnexh : ¬ iv.maxUses ≤ iv.uses := by omega
  have hup := find?_updateInvite_self hfi
    (fun x => { x with uses := x.uses + 1, disabled := decide (x.maxUses ≤ x.uses + 1) }) rfl
  by_cases hmem : uid ∈ g.members
  · have hres : joinWithInvite db uid token now =
        ({ db with invites := updateInvite db.invites (sha256 token) (fun x =>
            { x with uses := x.uses + 1,
                     disabled := decide (x.maxUses ≤ x.uses + 1) }) },
         .joinedViaInvite g.id) := by
      unfold joinWithInvite
      dsimp only
      rw [if_neg htok]
      rw [hfi]
      dsimp only
      rw [if_neg (by simp [hdis]), if_neg hnexp, if_neg hnexh]
      rw [hg]
      dsimp only
      rw [if_neg hnb, if_neg (by simp [hcap]), if_pos hmem]
    rw [hres]
    refine ⟨rfl, ⟨_, hup, by simp [huses], by simp [hmax, huses]⟩, ⟨g, hg, hmem⟩, ?_⟩
    intro uid2 now2
    unfold joinWithInvite
    dsimp only
    rw [if_neg htok]
    rw [show findInvite
        ({ db with invites := updateInvite db.invites (sha256 token) (fun x =>
            { x with uses := x.uses + 1,
                     disabled := decide (x.maxUses ≤ x.uses + 1) }) } : DB)
        (sha256 token) = some _ from hup]
    dsimp only
    rw [if_pos (by simp [hmax, huses])]
  · have hres : joinWithInvite db uid token now =
        ({ db with
            groups := updateGroup db.groups g.id (fun h =>
              { h with members := h.members ++ [uid] }),
            invites := updateInvite db.invites (sha256 token) (fun x =>
              { x with uses := x.uses + 1,
                       disabled := decide (x.maxUses ≤ x.uses + 1) }) },
         .joinedViaInvite g.id) := by
      unfold joinWithInvite
      dsimp only
      rw [if_neg htok]
      rw [hfi]
      dsimp only
      rw [if_neg (by simp [hdis]), if_neg hnexp, if_neg hnexh]
      rw [hg]
      dsimp only
      rw [if_neg hnb, if_neg (by simp [hcap]), if_neg hmem]
    rw [hres]
    have hfg := find?_updateGroup_self hg
      (fun h => { h with members := h.members ++ [uid] }) rfl
    refine ⟨rfl, ⟨_, hup, by simp [huses], by simp [hmax, huses]⟩,
      ⟨_, hfg, List.mem_append.mpr (Or.inr (List.mem_singleton.mpr rfl))⟩, ?_⟩
    intro uid2 now2
    unfold joinWithInvite
    dsimp only
    rw [if_neg htok]
    rw [show findInvite
        ({ db with
            groups := updateGroup db.groups g.id (fun h =>
              { h with members := h.members ++ [uid] }),
            invites := updateInvite db.invites (sha256 token) (fun x =>
              { x with uses := x.uses + 1,
                       disabled := decide (x.maxUses ≤ x.uses + 1) }) } : DB)
        (sha256 token) = some _ from hup]
    dsimp only
    rw [if_pos (by simp [hmax, huses])]

/-- Witness for the amended C6 at a concrete store: user 3 redeems the
single-use invite of the sample store, then user 2 tries the same token. -/
theorem invite_single_use_semantics_witness :
    (joinWithInvite dbEx 3 "tok" 5).2 = .joinedViaInvite gExOpen.id ∧
    (∃ iv', findInvite (joinWithInvite dbEx 3 "tok" 5).1 (sha256 "tok") = some iv' ∧
      iv'.uses = 1 ∧ iv'.disabled = true) ∧
    (∃ g', findGroup (joinWithInvite dbEx 3 "tok" 5).1 10 = some g' ∧ 3 ∈ g'.members) ∧
    (∀ uid2 now2, joinWithInvite (joinWithInvite dbEx 3 "tok" 5).1 uid2 "tok" now2
      = ((joinWithInvite dbEx 3 "tok" 5).1, .invalidInvite)) :=
  invite_single_use_semantics dbEx 3 "tok" 5 ⟨10, 1, sha256 "tok", 1, 0, 1000, false⟩
    gExOpen (by decide) (by simp [findInvite, dbEx, List.find?]) rfl rfl rfl (by decide)
    (by decide) (by decide) (by decide)

/-- C6 as stated is false: after the first redemption of a maxUses=1
invite, a second attempt with the same token fails with the generic
"Invalid invite" (400) — the invite is disabled and that check comes
first — not with "Invite exhausted". -/
theorem invite_second_redemption_not_exhausted :
    (joinWithInvite dbEx 3 "tok" 5).2 = .joinedViaInvite 10 ∧
    (joinWithInvite (joinWithInvite dbEx 3 "tok" 5).1 2 "tok" 6).2 = .invalidInvite ∧
    InviteOut.invalidInvite ≠ InviteOut.exhausted := by
  refine ⟨rfl, rfl, by decide⟩

/-! ## C7: the 48h cooldown -/

/-- After the cooldown gate passes, the request tail: echo an existing
pending request, else upsert to pending; either way the pair resolves
pending afterwards. -/
theorem requestJoinUpsert_spec (db : DB) (g : Group) (uid : Nat)
    (hnd : (db.reqs.map JoinRequest.id).Nodup) :
    ∃ rid, ((requestJoinUpsert db g uid).2 = .alreadySubmitted rid ∨
            (requestJoinUpsert db g uid).2 = .submitted rid) ∧
      ∃ jr, findReqByPair (requestJoinUpsert db g uid).1 g.id uid = some jr ∧
        jr.status = .pending := by
  unfold requestJoinUpsert
  cases h : findReqByPair db g.id uid with
  | some r =>
    dsimp only
    by_cases hp : (r.status == RStatus.pending) = true
    · rw [if_pos hp]
      exact ⟨r.id, Or.inl rfl, r, h, by simpa using hp⟩
    · rw [if_neg hp]
      exact ⟨r.id, Or.inr rfl,
        _, findReqByPair_updateReq_self hnd h (fun q => { q with status := .pending }) rfl rfl,
        rfl⟩
  | none =>
    dsimp only
    refine ⟨db.nextId, Or.inr rfl, ⟨db.nextId, g.id, uid, .pending⟩, ?_, rfl⟩
    show (db.reqs ++ [(⟨db.nextId, g.id, uid, .pending⟩ : JoinRequest)]).find? _ = _
    rw [find?_append_left_none h]
    simp [List.find?_cons]

/-- C7: with a most-recent LeaveHistory entry at `t` for the (private
group, user) pair — (i) a request strictly inside the 48h window fails
with a cooldown error whose remaining-hours value is the ceiling of the
remaining time in hours, and the store (JoinRequests included) is
untouched; (ii) at or past 48h the request succeeds and the pair resolves
to a pending JoinRequest; (iii) a successful leave appends a LeaveHistory
record exactly when the group is private, never when it is open. -/
theorem cooldown_semantics (db : DB) (gidN uid now t : Nat) (g : Group)
    (hnd : (db.reqs.map JoinRequest.id).Nodup)
    (hfind : findGroup db gidN = some g)
    (hty : g.type = .priv)
    (hmem : uid ∉ g.members)
    (hnb : uid ∉ g.bannedUsers)
    (hlast : ((db.leaves.filter (fun h => h.group == g.id && h.user == uid)).map
        LeaveHistory.leftAt).max? = some t)
    (hts : t ≤ now) :
    (now - t < cooldownMs →
      requestJoinPrivate db (.valid gidN) uid now =
        (db, .cooldownActive ((cooldownMs - (now - t) + (msPerHour - 1)) / msPerHour)) ∧
      cooldownMs - (now - t) ≤
        ((cooldownMs - (now - t) + (msPerHour - 1)) / msPerHour) * msPerHour ∧
      (((cooldownMs - (now - t) + (msPerHour - 1)) / msPerHour) - 1) * msPerHour <
        cooldownMs - (now - t)) ∧
    (cooldownMs ≤ now - t →
      ∃ rid, ((requestJoinPrivate db (.valid gidN) uid now).2 = .alreadySubmitted rid ∨
              (requestJoinPrivate db (.valid gidN) uid now).2 = .submitted rid) ∧
        ∃ jr, findReqByPair (requestJoinPrivate db (.valid gidN) uid now).1 g.id uid
            = some jr ∧ jr.status = .pending) ∧
    (∀ db2 gid2 uid2 now2 g2, findGroup db2 gid2 = some g2 → uid2 ∈ g2.members →
      g2.owner ≠ uid2 →
      (leaveGroup db2 (.valid gid2) uid2 now2).2 = .left ∧
      (g2.type = .priv →
        (leaveGroup db2 (.valid gid2) uid2 now2).1.leaves
          = db2.leaves ++ [⟨g2.id, uid2, now2⟩]) ∧
      (g2.type = .open' →
        (leaveGroup db2 (.valid gid2) uid2 now2).1.leaves = db2.leaves)) := by
  have hnbeq : ensureNotBanned db g uid = none := by
    unfold ensureNotBanned
    rw [if_neg hnb]
  refine ⟨?_, ?_, ?_⟩
  · intro hlt
    have hres : requestJoinPrivate db (.valid gidN) uid now =
        (db, .cooldownActive ((cooldownMs - (now - t) + (msPerHour - 1)) / msPerHour)) := by
      unfold requestJoinPrivate
      dsimp only
      rw [hfind]
      dsimp only
      rw [if_neg (by simp [hty]), if_neg hmem, hnbeq]
      dsimp only
      rw [hlast]
      dsimp only
      rw [if_pos hlt]
    refine ⟨hres, ?_, ?_⟩
    · have hdm := Nat.div_add_mod (cooldownMs - (now - t) + (msPerHour - 1)) msPerHour
      have hml : (cooldownMs - (now - t) + (msPerHour - 1)) % msPerHour < msPerHour :=
        Nat.mod_lt _ (by simp [msPerHour])
      simp only [msPerHour, cooldownMs] at *
      omega
    · have hdm := Nat.div_add_mod (cooldownMs - (now - t) + (msPerHour - 1)) msPerHour
      have hml : (cooldownMs - (now - t) + (msPerHour - 1)) % msPerHour < msPerHour :=
        Nat.mod_lt _ (by simp [msPerHour])
      simp only [msPerHour, cooldownMs] at *
      omega
  · intro hge
    have hres : requestJoinPrivate db (.valid gidN) uid now = requestJoinUpsert db g uid := by
      unfold requestJoinPrivate
      dsimp only
      rw [hfind]
      dsimp only
      rw [if_neg (by simp [hty]), if_neg hmem, hnbeq]
      dsimp only
      rw [hlast]
      dsimp only
      rw [if_neg (by omega)]
    rw [hres]
    exact requestJoinUpsert_spec db g uid hnd
  · intro db2 gid2 uid2 now2 g2 hfind2 hmem2 hown2
    have hstep : leaveGroup db2 (.valid gid2) uid2 now2 =
        (if g2.type == GType.priv then
          ({ db2 with
              groups := updateGroup db2.groups g2.id (fun h =>
                { h with members := h.members.erase uid2 }),
              leaves := db2.leaves ++ [⟨g2.id, uid2, now2⟩] }, LeaveOut.left)
         else
          ({ db2 with
              groups := updateGroup db2.groups g2.id (fun h =>
                { h with members := h.members.erase uid2 }) }, LeaveOut.left)) := by
      unfold leaveGroup
      dsimp only
      rw [hfind2]
      dsimp only
      rw [if_neg (not_not_intro hmem2), if_neg (by simp [hown2])]
    refine ⟨?_, ?_, ?_⟩
    · rw [hstep]
      split <;> rfl
    · intro hp
      rw [hstep, if_pos (by simp [hp])]
    · intro ho
      rw [hstep, if_neg (by simp [ho])]

/-- Witness for C7: user 3 (who left the private group at t=0) is blocked
1 second in (remaining 48h) and succeeds exactly at the 48h mark; member
2 leaving the private group appends a LeaveHistory row, leaving the open
group does not. -/
theorem cooldown_semantics_witness :
    requestJoinPrivate dbEx (.valid 11) 3 1000 = (dbEx, .cooldownActive 48) ∧
    (∃ rid, ((requestJoinPrivate dbEx (.valid 11) 3 172800000).2 = .alreadySubmitted rid ∨
             (requestJoinPrivate dbEx (.valid 11) 3 172800000).2 = .submitted rid) ∧
      ∃ jr, findReqByPair (requestJoinPrivate dbEx (.valid 11) 3 172800000).1 11 3
          = some jr ∧ jr.status = .pending) ∧
    ((leaveGroup dbEx (.valid 11) 2 7).2 = .left ∧
      (leaveGroup dbEx (.valid 11) 2 7).1.leaves = dbEx.leaves ++ [⟨11, 2, 7⟩]) ∧
    ((leaveGroup dbEx (.valid 10) 2 7).2 = .left ∧
      (leaveGroup dbEx (.valid 10) 2 7).1.leaves = dbEx.leaves) :=
  ⟨((cooldown_semantics dbEx 11 3 1000 0 gExPriv (by decide) (by decide) rfl (by decide)
      (by decide) (by decide) (by decide)).1 (by decide)).1,
   (cooldown_semantics dbEx 11 3 172800000 0 gExPriv (by decide) (by decide) rfl (by decide)
      (by decide) (by decide) (by decide)).2.1 (by decide),
   ⟨((cooldown_semantics dbEx 11 3 1000 0 gExPriv (by decide) (by decide) rfl (by decide)
      (by decide) (by decide) (by decide)).2.2 dbEx 11 2 7 gExPriv (by decide) (by decide)
      (by decide)).1,
    ((cooldown_semantics dbEx 11 3 1000 0 gExPriv (by decide) (by decide) rfl (by decide)
      (by decide) (by decide) (by decide)).2.2 dbEx 11 2 7 gExPriv (by decide) (by decide)
      (by decide)).2.1 rfl⟩,
   ⟨((cooldown_semantics dbEx 11 3 1000 0 gExPriv (by decide) (by decide) rfl (by decide)
      (by decide) (by decide) (by decide)).2.2 dbEx 10 2 7 gExOpen (by decide) (by decide)
      (by decide)).1,
    ((cooldown_semantics dbEx 11 3 1000 0 gExPriv (by decide) (by decide) rfl (by decide)
      (by decide) (by decide) (by decide)).2.2 dbEx 10 2 7 gExOpen (by decide) (by decide)
      (by decide)).2.2 rfl⟩⟩

/-! ## C8: owner cannot self-leave -/

/-- C8 (amended): a leave call by the current owner (a member) fails with
the dedicated "Owner must transfer ownership before leaving" error —
distinct in message from "Not a member" but carried with status 400, not
403 — and the store is unchanged; a non-owner member leave succeeds and
removes the user from the group members. -/
theorem leave_semantics (db : DB) (gidN uid now : Nat) (g : Group)
    (hfind : findGroup db gidN = some g)
    (hnodup : g.members.Nodup) :
    (uid ∈ g.members → g.owner = uid →
      leaveGroup db (.valid gidN) uid now = (db, .ownerMustTransfer) ∧
      LeaveOut.status .ownerMustTransfer = 400 ∧
      LeaveOut.msg .ownerMustTransfer ≠ LeaveOut.msg .notMember ∧
      LeaveOut.status .ownerMustTransfer ≠ 403) ∧
    (uid ∈ g.members → g.owner ≠ uid →
      (leaveGroup db (.valid gidN) uid now).2 = .left ∧
      ∃ g', findGroup (leaveGroup db (.valid gidN) uid now).1 gidN = some g' ∧
        g'.members = g.members.erase uid ∧ uid ∉ g'.members) := by
  constructor
  · intro hmem hown
    refine ⟨?_, rfl, by decide, by decide⟩
    unfold leaveGroup
    dsimp only
    rw [hfind]
    dsimp only
    rw [if_neg (not_not_intro hmem), if_pos (by simp [hown])]
  · intro hmem hown
    have hstep : leaveGroup db (.valid gidN) uid now =
        (if g.type == GType.priv then
          ({ db with
              groups := updateGroup db.groups g.id (fun h =>
                { h with members := h.members.erase uid }),
              leaves := db.leaves ++ [⟨g.id, uid, now⟩] }, LeaveOut.left)
         else
          ({ db with
              groups := updateGroup db.groups g.id (fun h =>
                { h with members := h.members.erase uid }) }, LeaveOut.left)) := by
      unfold leaveGroup
      dsimp only
      rw [hfind]
      dsimp only
      rw [if_neg (not_not_intro hmem), if_neg (by simpa using hown)]
    have hgroups : (leaveGroup db (.valid gidN) uid now).1.groups =
        updateGroup db.groups g.id (fun h => { h with members := h.members.erase uid }) := by
      rw [hstep]
      split <;> rfl
    have hout : (leaveGroup db (.valid gidN) uid now).2 = .left := by
      rw [hstep]
      split <;> rfl
    refine ⟨hout, ?_⟩
    refine ⟨{ g with members := g.members.erase uid }, ?_, rfl, hnodup.not_mem_erase⟩
    show (leaveGroup db (.valid gidN) uid now).1.groups.find? _ = _
    rw [hgroups]
    exact find?_updateGroup_self hfind _ rfl

/-- Witness for the amended C8: owner 1, then member 2, leave the open
sample group. -/
theorem leave_semantics_witness :
    (leaveGroup dbEx (.valid 10) 1 7 = (dbEx, .ownerMustTransfer) ∧
      LeaveOut.status .ownerMustTransfer = 400 ∧
      LeaveOut.msg .ownerMustTransfer ≠ LeaveOut.msg .notMember ∧
      LeaveOut.status .ownerMustTransfer ≠ 403) ∧
    ((leaveGroup dbEx (.valid 10) 2 7).2 = .left ∧
      ∃ g', findGroup (leaveGroup dbEx (.valid 10) 2 7).1 10 = some g' ∧
        g'.members = gExOpen.members.erase 2 ∧ 2 ∉ g'.members) :=
  ⟨(leave_semantics dbEx 10 1 7 gExOpen (by decide) (by decide)).1 (by decide) rfl,
   (leave_semantics dbEx 10 2 7 gExOpen (by decide) (by decide)).2 (by decide) (by decide)⟩

/-- C8 as stated is false in one respect: the owner-must-transfer error is
reported with HTTP status 400 (like the not-a-member error), not as a 403
Forbidden; only its message distinguishes it. -/
theorem owner_leave_status_not_403 :
    (leaveGroup dbEx (.valid 10) 1 7).2 = .ownerMustTransfer ∧
    LeaveOut.status (leaveGroup dbEx (.valid 10) 1 7).2 = 400 ∧
    LeaveOut.msg (leaveGroup dbEx (.valid 10) 1 7).2 ≠ LeaveOut.msg .notMember ∧
    (400 : Nat) ≠ 403 := by
  refine ⟨rfl, rfl, by decide, by decide⟩

/-! ## C9: send/list round-trip -/

theorem decrypt_encrypt (t : String) : decryptMessage (encryptMessage t) = t := by
  cases t
  simp [encryptMessage, decryptMessage]

instance : IsTotal Message (fun a b => a.createdAt ≤ b.createdAt) :=
  ⟨fun a b => Nat.le_total a.createdAt b.createdAt⟩

instance : IsTrans Message (fun a b => a.createdAt ≤ b.createdAt) :=
  ⟨fun _ _ _ hab hbc => Nat.le_trans hab hbc⟩

/-- C9: after a member sends a message, a list call by any member returns
a result that contains that message with the original plaintext (the
codec round-trips), is a permutation of the decrypted views of exactly
the post-send messages of this group with `createdAt > since` (all of
them when `since` is omitted), and is ascending in createdAt. -/
theorem send_list_roundtrip (db : DB) (gid sender caller : Nat) (text : String)
    (now : Nat) (g : Group) (since : Option Nat)
    (hfind : findGroup db gid = some g)
    (hsender : sender ∈ g.members)
    (hcaller : caller ∈ g.members)
    (htext : 1 ≤ text.length ∧ text.length ≤ 5000)
    (hsince : ∀ s, since = some s → s < now) :
    (sendMessage db gid sender text now).2 = .sent db.nextId now ∧
    ∃ out, listMessages (sendMessage db gid sender text now).1 gid caller since
        = .listed out ∧
      (⟨db.nextId, sender, now, text⟩ : MsgView) ∈ out ∧
      out.Perm (((db.msgs ++ [(⟨db.nextId, g.id, sender, encryptMessage text, now⟩
          : Message)]).filter (sinceFilter g.id since)).map msgView) ∧
      out.Pairwise (fun a b => a.createdAt ≤ b.createdAt) := by
  have hsend : sendMessage db gid sender text now =
      ({ db with
          msgs := db.msgs ++ [(⟨db.nextId, g.id, sender, encryptMessage text, now⟩
            : Message)],
          nextId := db.nextId + 1 }, .sent db.nextId now) := by
    unfold sendMessage
    rw [if_neg (by simp; omega)]
    rw [hfind]
    dsimp only
    rw [if_neg (not_not_intro hsender)]
  rw [hsend]
  refine ⟨rfl, ?_⟩
  have hlist : listMessages
      ({ db with
          msgs := db.msgs ++ [(⟨db.nextId, g.id, sender, encryptMessage text, now⟩
            : Message)],
          nextId := db.nextId + 1 } : DB) gid caller since =
      .listed ((List.insertionSort (fun a b : Message => a.createdAt ≤ b.createdAt)
        ((db.msgs ++ [(⟨db.nextId, g.id, sender, encryptMessage text, now⟩
          : Message)]).filter (sinceFilter g.id since))).map msgView) := by
    unfold listMessages
    rw [show findGroup
        ({ db with
            msgs := db.msgs ++ [(⟨db.nextId, g.id, sender, encryptMessage text, now⟩
              : Message)],
            nextId := db.nextId + 1 } : DB) gid = some g from hfind]
    dsimp only
    rw [if_neg (not_not_intro hcaller)]
  refine ⟨_, hlist, ?_, ?_, ?_⟩
  · have hm0 : (⟨db.nextId, g.id, sender, encryptMessage text, now⟩ : Message) ∈
        (db.msgs ++ [(⟨db.nextId, g.id, sender, encryptMessage text, now⟩
          : Message)]).filter (sinceFilter g.id since) := by
      rw [List.mem_filter]
      refine ⟨List.mem_append.mpr (Or.inr (List.mem_singleton.mpr rfl)), ?_⟩
      cases since with
      | none => simp [sinceFilter]
      | some s => simp [sinceFilter, hsince s rfl]
    have hsorted := (List.perm_insertionSort
        (fun a b : Message => a.createdAt ≤ b.createdAt)
        ((db.msgs ++ [(⟨db.nextId, g.id, sender, encryptMessage text, now⟩
          : Message)]).filter (sinceFilter g.id since))).mem_iff.mpr hm0
    have := List.mem_map_of_mem msgView hsorted
    simpa [msgView, decrypt_encrypt] using this
  · exact (List.perm_insertionSort _ _).map _
  · rw [List.pairwise_map]
    exact List.Pairwise.imp (fun hab => hab)
      (List.sorted_insertionSort (fun a b : Message => a.createdAt ≤ b.createdAt) _)

/-- Witness for C9: member 1 sends "hi" in the sample open group at t=5;
member 2 lists with no `since`. -/
theorem send_list_roundtrip_witness :
    (sendMessage dbEx 10 1 "hi" 5).2 = .sent dbEx.nextId 5 ∧
    ∃ out, listMessages (sendMessage dbEx 10 1 "hi" 5).1 10 2 none = .listed out ∧
      (⟨dbEx.nextId, 1, 5, "hi"⟩ : MsgView) ∈ out ∧
      out.Perm (((dbEx.msgs ++ [(⟨dbEx.nextId, 10, 1, encryptMessage "hi", 5⟩
          : Message)]).filter (sinceFilter 10 none)).map msgView) ∧
      out.Pairwise (fun a b => a.createdAt ≤ b.createdAt) :=
  send_list_roundtrip dbEx 10 1 2 "hi" 5 gExOpen none (by decide) (by decide) (by decide)
    (by decide) (fun s h => nomatch h)

/-! ## C10: invites never override a ban, and fail without side effects -/

/-- C10: when a banned user presents a valid, unexpired, unexhausted,
enabled invite for the group, redemption fails with a bare 403 and the
store is returned unchanged: no pending JoinRequest is upserted (unlike
joinOpen / requestJoinPrivate), the invite keeps its uses count and stays
enabled, and the group's members and banned sets are untouched. -/
theorem banned_redeem_is_noop (db : DB) (uid : Nat) (token : String) (now : Nat)
    (iv : Invite) (g : Group)
    (htok : ¬ token.length < 1)
    (hfi : findInvite db (sha256 token) = some iv)
    (hdis : iv.disabled = false)
    (hexp : now < iv.expiresAt)
    (hexh : iv.uses < iv.maxUses)
    (hg : findGroup db iv.group = some g)
    (hban : uid ∈ g.bannedUsers) :
    joinWithInvite db uid token now = (db, .bannedForbidden) ∧
    InviteOut.status .bannedForbidden = 403 := by
  refine ⟨?_, rfl⟩
  unfold joinWithInvite
  dsimp only
  rw [if_neg htok]
  rw [hfi]
  dsimp only
  rw [if_neg (by simp [hdis]), if_neg (by omega), if_neg (by omega)]
  rw [hg]
  dsimp only
  rw [if_pos hban]

/-- Witness for C10: banned user 4 presents the live single-use invite of
the sample store. -/
theorem banned_redeem_is_noop_witness :
    joinWithInvite dbEx 4 "tok" 5 = (dbEx, .bannedForbidden) ∧
    InviteOut.status .bannedForbidden = 403 :=
  banned_redeem_is_noop dbEx 4 "tok" 5 ⟨10, 1, sha256 "tok", 1, 0, 1000, false⟩ gExOpen
    (by decide) (by simp [findInvite, dbEx, List.find?]) rfl (by decide) (by decide)
    (by decide) (by decide)

end GM
